import Mathlib

/-!
Bearer-realm follow-through of `http.go`.

A shallow embedding of the request/retry logic of `src/http/http.go`
(`getAuthStruct`, `objectify`, `authenticateBearer`, `doRealmReq`, `doreq`)
together with the `strings` helpers these functions call.

Go strings are modelled as lists of characters.  Every separator the code
splits on (`,`, `=`, `:`, `"`) is a single ASCII character, so splitting a
valid UTF-8 string on it byte-wise and character-wise agree.

Run-time panics of the Go code (index out of range, failed type assertion, use of
the nil request left by a failed `http.NewRequest`) are results of the model.  The
network and the other library calls are parameters (`Env`); every function that
sends returns, next to its result, the list of the requests it handed to
`client.Do`.  The calls `logMsg` and `printOutput` only write to standard output
and are left out.
-/

namespace HttpRealm

/-- A Go `string`, as its sequence of characters. -/
abbrev Str := List Char

/-! ## The `strings` helpers used by the source -/

/-- Go `strings.HasPrefix(s, prefix)`. -/
def hasPrefix (s pre : Str) : Bool := pre.isPrefixOf s

/-- Go `strings.HasSuffix(s, suffix)`. -/
def hasSuffix (s suf : Str) : Bool := suf.isSuffixOf s

/-- Go `strings.TrimPrefix(s, prefix)`: drops `prefix` once when `s` starts with it. -/
def trimPrefix (s pre : Str) : Str :=
  if hasPrefix s pre then s.drop pre.length else s

/-- Go `strings.TrimSuffix(s, suffix)`: drops `suffix` once when `s` ends with it. -/
def trimSuffix (s suf : Str) : Str :=
  if hasSuffix s suf then s.take (s.length - suf.length) else s

/-- Go `strings.Split(s, sep)` for a one-character separator: all pieces between
occurrences of `sep`; a string without `sep` (the empty string too) gives one piece. -/
def split (sep : Char) : Str → List Str
  | [] => [[]]
  | c :: cs =>
    if c = sep then [] :: split sep cs
    else
      match split sep cs with
      | [] => [[c]]
      | piece :: rest => (c :: piece) :: rest

/-- The part of `s` before the first `sep` and, when `sep` occurs, the part after it. -/
def cut (sep : Char) : Str → Str × Option Str
  | [] => ([], none)
  | c :: cs =>
    if c = sep then ([], some cs)
    else ((cut sep cs).1.cons c, (cut sep cs).2)

/-- Go `strings.SplitN(s, sep, 2)` for a one-character separator: `[s]` when `sep`
does not occur, else the part before the first `sep` and everything after it. -/
def splitN2 (sep : Char) (s : Str) : List Str :=
  match cut sep s with
  | (before, some after) => [before, after]
  | (before, none) => [before]

/-- Go `unicode.IsSpace`: the white space characters `strings.Fields` splits around. -/
def isSpace (c : Char) : Bool :=
  let n := c.toNat
  (9 ≤ n && n ≤ 13) || n = 32 || n = 0x85 || n = 0xA0 || n = 0x1680 ||
  (0x2000 ≤ n && n ≤ 0x200A) || n = 0x2028 || n = 0x2029 || n = 0x202F ||
  n = 0x205F || n = 0x3000

/-- Scan of `strings.Fields`: `cur` holds the field being read, reversed. -/
def fieldsFrom : Str → Str → List Str
  | [], cur => if cur.isEmpty then [] else [cur.reverse]
  | c :: cs, cur =>
    if isSpace c then
      if cur.isEmpty then fieldsFrom cs [] else cur.reverse :: fieldsFrom cs []
    else fieldsFrom cs (c :: cur)

/-- Go `strings.Fields(s)`: the maximal runs of non-space characters of `s`. -/
def fields (s : Str) : List Str := fieldsFrom s []

/-! ## Constants of the source -/

/-- The key `"realm"` that `objectify` pulls out of the parameters. -/
def realmKey : Str := "realm".toList

/-- The field `"token"` read from the realm's JSON answer. -/
def tokenKey : Str := "token".toList

/-- The scheme token `"Bearer"` a followed challenge starts with. -/
def bearerScheme : Str := "Bearer".toList

/-- The method `"GET"`. -/
def getMethod : Str := "GET".toList

/-- The URL scheme `"http"`. -/
def httpScheme : Str := "http".toList

/-- The URL scheme `"https"`. -/
def httpsScheme : Str := "https".toList

/-- The request field `"Authorization"`. -/
def authorization : Str := "Authorization".toList

/-- The response field read by `resp.Header.Get("www-authenticate")`, in the canonical
form `"Www-Authenticate"` under which `net/http` stores and looks up header fields. -/
def wwwAuthenticate : Str := "Www-Authenticate".toList

/-! ## Run-time failures and results -/

/-- The Go run-time panics the modelled code can raise. -/
inductive Fault where
  | indexOutOfRange
  | typeAssertion
  | nilDereference
  deriving DecidableEq

/-- Result of running a piece of Go code: it returns a value or stops with a run-time panic. -/
inductive Outcome (α : Type) where
  | ret (val : α)
  | fault (p : Fault)
  deriving DecidableEq

/-- Go slice indexing `xs[i]`, which panics when `i` is out of range. -/
def index {α : Type} (xs : List α) (i : Nat) : Outcome α :=
  match xs.get? i with
  | some x => .ret x
  | none => .fault .indexOutOfRange

/-! ## Data model -/

/-- Go `type UserAuthStruct struct { user, pass string }`. -/
structure UserAuthStruct where
  user : Str
  pass : Str
  deriving DecidableEq

/-- A Go `map[string]string`, as its entries; keys are pairwise distinct. -/
abbrev StrMap := List (Str × Str)

/-- Go `m[k]` read with presence. -/
def mapGet {β : Type} (m : List (Str × β)) (k : Str) : Option β :=
  match m with
  | [] => none
  | (k', v) :: rest => if k' = k then some v else mapGet rest k

/-- Go `m[k] = v`: overwrites the entry of `k` when there is one, else adds it. -/
def mapSet (m : StrMap) (k v : Str) : StrMap :=
  match m with
  | [] => [(k, v)]
  | (k', v') :: rest => if k' = k then (k, v) :: rest else (k', v') :: mapSet rest k v

/-- Go `type RealmAuthStruct struct { realm string; params map[string]string }`. -/
structure RealmAuthStruct where
  realm : Str
  params : StrMap
  deriving DecidableEq

/-- A Go `error` value, by its message. -/
structure GoError where
  text : Str
  deriving DecidableEq

/-- Go `errors.New(text)`. -/
def errorsNew (text : Str) : GoError := ⟨text⟩

/-! ## `getAuthStruct` and `objectify` -/

/-- The function `getAuthStruct` of http.go: the Go pair `(UserAuthStruct, error)`. -/
def getAuthStruct (auth : Str) : Outcome (UserAuthStruct × Option GoError) :=
  if auth = [] then
    .ret ({ user := [], pass := [] }, some (errorsNew "invalid auth".toList))
  else
    let authA := splitN2 ':' auth
    match index authA 0 with
    | .fault p => .fault p
    | .ret user =>
      if authA.length > 1 then
        match index authA 1 with
        | .fault p => .fault p
        | .ret pass => .ret ({ user := user, pass := pass }, none)
      else .ret ({ user := user, pass := [] }, none)

/-- One iteration of the loop of `objectify` on the segment `param`. -/
def objectifyStep (ras : RealmAuthStruct) (param : Str) : Outcome RealmAuthStruct :=
  let keyval := splitN2 '=' param
  match index keyval 1 with
  | .fault p => .fault p
  | .ret raw =>
    let value := trimSuffix (trimPrefix raw ['"']) ['"']
    match index keyval 0 with
    | .fault p => .fault p
    | .ret key =>
      if key = realmKey then .ret { ras with realm := value }
      else .ret { ras with params := mapSet ras.params key value }

/-- The `for _, param := range authParts` loop of `objectify`. -/
def objectifyLoop : List Str → RealmAuthStruct → Outcome RealmAuthStruct
  | [], ras => .ret ras
  | param :: rest, ras =>
    match objectifyStep ras param with
    | .fault p => .fault p
    | .ret ras' => objectifyLoop rest ras'

/-- The function `objectify` of http.go. -/
def objectify (input : Str) : Outcome RealmAuthStruct :=
  objectifyLoop (split ',' input) { realm := [], params := [] }

/-! ## Requests, responses and the environment -/

/-- An `*http.Request` built by `http.NewRequest(method, url, body)`: method, URL text,
body (`none` is the `nil` reader) and the header fields set on it afterwards. -/
structure Request where
  method : Str
  url : Str
  body : Option Str
  header : List (Str × Str)
  deriving DecidableEq

/-- An `*http.Response`: status code, header (canonical field name to its values)
and the content of the body. -/
structure Response where
  status : Nat
  header : List (Str × List Str)
  body : Str
  deriving DecidableEq

/-- What `client.Do` hands back: a response with a nil error, or a non-nil error
(with which Go may still pass a response, the failed-redirect case). -/
inductive Reply where
  | ok (resp : Response)
  | fail (err : GoError) (resp : Option Response)
  deriving DecidableEq

/-- A value held in a Go `interface{}` after `encoding/json` decoding. -/
inductive JValue where
  | null
  | bool (b : Bool)
  | number (literal : Str)
  | string (s : Str)
  | array (items : List JValue)
  | object (members : List (Str × JValue))

/-- The library calls of http.go whose code is outside the repository, with the one fact
about them that the proofs use. -/
structure Env where
  /-- The answer of the network to a request that the transport sends. -/
  network : Request → Reply
  /-- The `Scheme` of `url.Parse(url)`, which the transport reads from `request.URL`. -/
  scheme : Str → Str
  /-- The error with which the transport refuses a request whose scheme it does not know. -/
  schemeError : Request → GoError
  /-- The error of `http.NewRequest(method, url, body)`: `none` when the request is built,
  an error (invalid method, URL that does not parse) when the result is the nil request. -/
  newRequestErr : Str → Str → Option GoError
  /-- The credential text of `SetBasicAuth`: `"Basic " + base64(user + ":" + pass)`. -/
  basicAuth : Str → Str → Str
  /-- `url.Parse(realm)`, then `q.Set(key, val)` for every entry of `params` on
  `u.Query()`, `u.RawQuery = q.Encode()` and `u.String()`; the error is `url.Parse`'s. -/
  realmURL : Str → StrMap → Except GoError Str
  /-- `json.NewDecoder(body).Decode(&data)` with `data map[string]interface{}`. -/
  decode : Str → Except GoError (List (Str × JValue))
  /-- `url.Parse("")` succeeds with the empty URL; with the parameters merged in, its text
  (empty, or `?` and the encoded query) has no scheme and `http.NewRequest` accepts it. -/
  realmURL_nil : ∀ params, ∃ u,
    realmURL [] params = .ok u ∧ scheme u = [] ∧ newRequestErr getMethod u = none

/-- `(&http.Client{}).Do(request)` on a non-nil request: the stock transport refuses a
request whose URL scheme is neither `http` nor `https` before anything is sent, and hands
any other request to the network. -/
def Env.client (env : Env) (r : Request) : Reply :=
  if env.scheme r.url = httpScheme ∨ env.scheme r.url = httpsScheme then env.network r
  else .fail (env.schemeError r) none

/-- The request that `http.NewRequest(method, url, body)` gives when it succeeds; an empty
method stands for `GET`. -/
def buildRequest (method url : Str) (body : Option Str) : Request :=
  { method := if method = [] then getMethod else method
    url := url, body := body, header := [] }

/-- Go `http.NewRequest(method, url, body)`: the request, or `none` for the nil request that
comes with an error, which no caller in http.go tests. -/
def newRequest (env : Env) (method url : Str) (body : Option Str) : Option Request :=
  match env.newRequestErr method url with
  | none => some (buildRequest method url body)
  | some _ => none

/-- Go `request.Header.Set(key, value)` for a canonical `key`. -/
def Request.headerSet (r : Request) (key value : Str) : Request :=
  { r with header := mapSet r.header key value }

/-- Go `request.SetBasicAuth(user, pass)`, which sets the `Authorization` field. -/
def Request.setBasicAuth (env : Env) (r : Request) (user pass : Str) : Request :=
  r.headerSet authorization (env.basicAuth user pass)

/-- Go `resp.Header.Get(key)`, with `key` already in canonical form: the first
value of the field, `""` when the field is absent. -/
def Response.headerGet (r : Response) (key : Str) : Str :=
  match mapGet r.header key with
  | some (v :: _) => v
  | _ => []

/-- A run of network code: its result and the requests handed to `client.Do`, in order. -/
structure Run (α : Type) where
  out : Outcome α
  sends : List Request
  deriving DecidableEq

/-- The function `authenticateBearer` of http.go: the Go pair `(string, error)`.  When
`http.NewRequest` fails, `SetBasicAuth` is skipped and `client.Do` gets the nil request. -/
def authenticateBearer (env : Env) (creds : UserAuthStruct) (realmAuth : RealmAuthStruct) :
    Run (Str × Option GoError) :=
  match env.realmURL realmAuth.realm realmAuth.params with
  | .error err => ⟨.ret ([], some err), []⟩
  | .ok u =>
    match newRequest env getMethod u none with
    | none => ⟨.fault .nilDereference, []⟩
    | some built =>
      let request := built.setBasicAuth env creds.user creds.pass
      match env.client request with
      | .fail err _ => ⟨.ret ([], some err), [request]⟩
      | .ok resp =>
        if resp.status ≠ 200 then
          ⟨.ret ([], some (errorsNew ("Failed to get token from ".toList ++ realmAuth.realm))),
            [request]⟩
        else
          match env.decode resp.body with
          | .ok data =>
            match mapGet data tokenKey with
            | some (.string token) => ⟨.ret (token, none), [request]⟩
            | _ => ⟨.fault .typeAssertion, [request]⟩
          | .error err => ⟨.ret ([], some err), [request]⟩

/-- The function `doRealmReq` of http.go.  The retry request is used without a test of the
error of `http.NewRequest`: `request.Header.Set` on the nil request is a panic. -/
def doRealmReq (env : Env) (method url body auth realmAuth authCmd : Str) : Run Reply :=
  match objectify authCmd with
  | .fault p => ⟨.fault p, []⟩
  | .ret realmAuthStruct =>
    match getAuthStruct realmAuth with
    | .fault p => ⟨.fault p, []⟩
    | .ret (userAuthStruct, _) =>
      let tok := authenticateBearer env userAuthStruct realmAuthStruct
      match tok.out with
      | .fault p => ⟨.fault p, tok.sends⟩
      | .ret (_, some err) => ⟨.ret (.fail err none), tok.sends⟩
      | .ret (token, none) =>
        match newRequest env method url (some body) with
        | none => ⟨.fault .nilDereference, tok.sends⟩
        | some built =>
          let request := built.headerSet authorization ("Bearer ".toList ++ token)
          ⟨.ret (env.client request), tok.sends ++ [request]⟩

/-- The function `doreq` of http.go.  The error of `http.NewRequest` is overwritten by that
of `getAuthStruct` and never tested: on the nil request both `request.SetBasicAuth` and
`client.Do` are a nil dereference, before anything is sent. -/
def doreq (env : Env) (method url : Str) (headers : List Str) (auth realmAuth body : Str) :
    Run Reply :=
  match getAuthStruct auth with
  | .fault p => ⟨.fault p, []⟩
  | .ret (authStruct, err) =>
    match newRequest env method url (some body) with
    | none => ⟨.fault .nilDereference, []⟩
    | some built =>
      let request :=
        match err with
        | none => built.setBasicAuth env authStruct.user authStruct.pass
        | some _ => built
      match env.client request with
      | .fail err resp => ⟨.ret (.fail err resp), [request]⟩
      | .ok resp =>
        if resp.status = 401 ∧ realmAuth ≠ [] then
          let authCmd := resp.headerGet wwwAuthenticate
          if authCmd ≠ [] ∧ hasPrefix authCmd bearerScheme = true then
            let authParts := fields authCmd
            match index authParts 1 with
            | .fault p => ⟨.fault p, [request]⟩
            | .ret arg =>
              let follow := doRealmReq env method url body auth realmAuth arg
              ⟨follow.out, request :: follow.sends⟩
          else ⟨.ret (.ok resp), [request]⟩
        else ⟨.ret (.ok resp), [request]⟩

/-! ## The requests of a run in which `http.NewRequest` succeeds -/

/-- The first request of `doreq`: the request built from `method`, `url` and `body`, with
`SetBasicAuth` applied when `getAuthStruct(auth)` gave no error. -/
def primaryRequest (env : Env) (method url auth body : Str) : Request :=
  match getAuthStruct auth with
  | .ret (authStruct, none) =>
    (buildRequest method url (some body)).setBasicAuth env authStruct.user authStruct.pass
  | _ => buildRequest method url (some body)

/-- The token request of `authenticateBearer`: a `GET` of the realm URL `u` without body,
with `SetBasicAuth(creds.user, creds.pass)`. -/
def tokenRequest (env : Env) (creds : UserAuthStruct) (u : Str) : Request :=
  (buildRequest getMethod u none).setBasicAuth env creds.user creds.pass

/-- The retry request of `doRealmReq`: the request built from `method`, `url` and `body`,
with `Header.Set("Authorization", "Bearer "+token)`. -/
def retryRequest (method url body token : Str) : Request :=
  (buildRequest method url (some body)).headerSet authorization ("Bearer ".toList ++ token)

/-! ## Reference definitions for the challenge parser -/

/-- Go `strings.Join(pieces, sep)` for a one-character separator. -/
def joinWith (sep : Char) : List Str → Str
  | [] => []
  | [piece] => piece
  | piece :: rest => piece ++ sep :: joinWith sep rest

/-- The challenge text of a list of (key, value) pairs: the segments `key=value`
joined by `,`. -/
def challengeOf (pairs : List (Str × Str)) : Str :=
  joinWith ',' (pairs.map fun p => p.1 ++ '=' :: p.2)

/-- Removal of the quotes around a value, as the specification words it: exactly one
leading `"` is removed if present, and then exactly one trailing `"` if present. -/
def unquote (v : Str) : Str :=
  let w := if v.head? = some '"' then v.tail else v
  if w.getLast? = some '"' then w.dropLast else w

/-- The challenge the specification assigns to a list of (key, value) pairs: the realm
is the unquoted value of the `realm` pair (empty when there is none) and the
parameters are all other pairs, each with its value unquoted. -/
def objectifyRef (pairs : List (Str × Str)) : RealmAuthStruct :=
  { realm :=
      match mapGet pairs realmKey with
      | some v => unquote v
      | none => []
    params :=
      (pairs.filter fun p => decide (p.1 ≠ realmKey)).map
        fun p => (p.1, unquote p.2) }

/-! ## Concrete servers, after the test servers of http_test.go -/

/-- Lower case of an ASCII letter. -/
def lowerASCII (c : Char) : Char :=
  if 65 ≤ c.toNat ∧ c.toNat ≤ 90 then Char.ofNat (c.toNat + 32) else c

/-- Scan of a URL text for its scheme, after `getScheme` of `net/url`: letters, and after
the first character digits, `+`, `-` and `.`, up to a `:`; `seen` is what was read,
reversed.  Any other character, or the end of the text, means that there is no scheme. -/
def schemeScan : Str → Str → Str
  | [], _ => []
  | c :: cs, seen =>
    let n := c.toNat
    if (97 ≤ n ∧ n ≤ 122) ∨ (65 ≤ n ∧ n ≤ 90) then schemeScan cs (c :: seen)
    else if (48 ≤ n ∧ n ≤ 57) ∨ n = 43 ∨ n = 45 ∨ n = 46 then
      if seen.isEmpty then [] else schemeScan cs (c :: seen)
    else if n = 58 then seen.reverse
    else []

/-- The scheme of a URL text, in lower case; empty when the text has none. -/
def schemeOf (url : Str) : Str := (schemeScan url []).map lowerASCII

/-- The characters of an HTTP token, of which a valid method consists. -/
def isTokenChar (c : Char) : Bool :=
  let n := c.toNat
  (97 ≤ n && n ≤ 122) || (65 ≤ n && n ≤ 90) || (48 ≤ n && n ≤ 57) ||
  n = 33 || (35 ≤ n && n ≤ 39) || n = 42 || n = 43 || n = 45 || n = 46 ||
  n = 94 || n = 95 || n = 96 || n = 124 || n = 126

/-- A stand-in for the error of `http.NewRequest`: it knows the invalid method (a character
that is no token character) and the URL that starts with `:` (missing protocol scheme). -/
def stubNewRequestErr (method url : Str) : Option GoError :=
  if method.all isTokenChar = false then some ⟨"net/http: invalid method".toList⟩
  else if url.head? = some ':' then some ⟨"missing protocol scheme".toList⟩
  else none

/-- A stand-in for the realm URL: the realm followed, when there are parameters, by `?` and
the parameters as `key=value` joined by `&`. -/
def stubRealmURL (realm : Str) (params : StrMap) : Except GoError Str :=
  if params.isEmpty then .ok realm
  else .ok (realm ++ '?' :: joinWith '&' (params.map fun p => p.1 ++ '=' :: p.2))

/-- A stand-in for the library part of `Env` around a given network and JSON decoder; the
credential text is left unencoded. -/
def stubEnv (network : Request → Reply)
    (decode : Str → Except GoError (List (Str × JValue))) : Env :=
  { network := network
    scheme := schemeOf
    schemeError := fun _ => ⟨"unsupported protocol scheme".toList⟩
    newRequestErr := stubNewRequestErr
    basicAuth := fun user pass => "Basic ".toList ++ user ++ ':' :: pass
    realmURL := stubRealmURL
    decode := decode
    realmURL_nil := by
      intro params
      cases params with
      | nil => exact ⟨[], rfl, rfl, rfl⟩
      | cons p rest =>
        exact ⟨'?' :: joinWith '&' ((p :: rest).map fun q : Str × Str => q.1 ++ '=' :: q.2),
          rfl, rfl, rfl⟩ }

/-- A JSON decoder knowing the four bodies the concrete realms below answer with. -/
def stubDecode (body : Str) : Except GoError (List (Str × JValue)) :=
  if body = "\x7b\"token\":\"abc123\"\x7d".toList then .ok [(tokenKey, .string "abc123".toList)]
  else if body = "\x7b\"token\":\"stale\"\x7d".toList then .ok [(tokenKey, .string "stale".toList)]
  else if body = "\x7b\"token\":5\x7d".toList then .ok [(tokenKey, .number "5".toList)]
  else if body = "\x7b\x7d".toList then .ok []
  else .error ⟨"invalid character".toList⟩

/-- A realm server that answers 200 with `tokenBody` to right credentials (`rjohn:rsomepass`)
and 401 otherwise, as `realmTS` of the tests does. -/
def realmServer (tokenBody : Str) (r : Request) : Reply :=
  if mapGet r.header authorization = some "Basic rjohn:rsomepass".toList then
    .ok { status := 200, header := [], body := tokenBody }
  else .ok { status := 401, header := [], body := [] }

/-- An origin at `http://origin/realm` that, as `ts` of the tests does on `/realm`, answers
200 to `Authorization: Bearer abc123`, and 401 with the `Www-Authenticate` value `challenge`
to a request without `Authorization` and with `Bearer invalid_token` to any other; requests
to other URLs go to the realm server. -/
def testNetwork (challenge tokenBody : Str) (r : Request) : Reply :=
  if r.url = "http://origin/realm".toList then
    match mapGet r.header authorization with
    | none =>
      .ok { status := 401, header := [(wwwAuthenticate, [challenge])], body := [] }
    | some a =>
      if a = "Bearer abc123".toList then .ok { status := 200, header := [], body := "realm".toList }
      else .ok { status := 401,
                 header := [(wwwAuthenticate, ["Bearer invalid_token".toList])],
                 body := [] }
  else realmServer tokenBody r

/-- The challenge of the tests: `Bearer realm="http://realm",service="foo.bar.me"`. -/
def bearerHeader : Str := "Bearer realm=\"http://realm\",service=\"foo.bar.me\"".toList

/-- The environment of the tests: origin and realm as in `TestMain`. -/
def testEnv : Env :=
  stubEnv (testNetwork bearerHeader "\x7b\"token\":\"abc123\"\x7d".toList) stubDecode

/-- The environment of the tests with an origin whose challenge is `Basic realm="x"`. -/
def basicEnv : Env :=
  stubEnv (testNetwork "Basic realm=\"x\"".toList "\x7b\"token\":\"abc123\"\x7d".toList) stubDecode

/-- The environment of the tests with a realm that issues the token `stale`, which the
origin answers with a further 401 and the challenge `Bearer invalid_token`. -/
def staleEnv : Env :=
  stubEnv (testNetwork bearerHeader "\x7b\"token\":\"stale\"\x7d".toList) stubDecode

/-- The environment of the tests with a realm whose answer of status 200 is `tokenBody`. -/
def realmEnv (tokenBody : Str) : Env :=
  stubEnv (testNetwork bearerHeader tokenBody) stubDecode

/-- The environment of the tests with an origin whose `Www-Authenticate` value is `challenge`. -/
def challengeEnv (challenge : Str) : Env :=
  stubEnv (testNetwork challenge "\x7b\"token\":\"abc123\"\x7d".toList) stubDecode

/-- The pairs `realm="http://realm"` and ` service="foo.bar.me"`, the second key with the
space that follows the comma in a challenge written `realm="...", service="..."`. -/
def spacedPairs : List (Str × Str) :=
  [("realm".toList, "\"http://realm\"".toList), (" service".toList, "\"foo.bar.me\"".toList)]

/-- The challenge `Bearer realm="http://realm", service="foo.bar.me"`. -/
def spacedHeader : Str := bearerScheme ++ ' ' :: challengeOf spacedPairs

/-! ## Facts about the `strings` helpers -/

theorem cut_of_not_mem (sep : Char) (s : Str) (h : sep ∉ s) : cut sep s = (s, none) := by
  induction s with
  | nil => rfl
  | cons c cs ih =>
    have hc : ¬ c = sep := fun e => h (by simp [e])
    have hcs : sep ∉ cs := fun m => h (List.mem_cons_of_mem _ m)
    simp [cut, hc, ih hcs]

theorem cut_append (sep : Char) (a b : Str) (h : sep ∉ a) :
    cut sep (a ++ sep :: b) = (a, some b) := by
  induction a with
  | nil => simp [cut]
  | cons c cs ih =>
    have hc : ¬ c = sep := fun e => h (by simp [e])
    have hcs : sep ∉ cs := fun m => h (List.mem_cons_of_mem _ m)
    simp [cut, hc, ih hcs]

theorem cut_of_mem (sep : Char) (s : Str) (h : sep ∈ s) :
    ∃ a b, cut sep s = (a, some b) ∧ sep ∉ a ∧ a ++ sep :: b = s := by
  induction s with
  | nil => simp at h
  | cons c cs ih =>
    by_cases hc : c = sep
    · exact ⟨[], cs, by simp [cut, hc], by simp, by simp [hc]⟩
    · have hcs : sep ∈ cs := by
        rcases List.mem_cons.mp h with e | m
        · exact absurd e.symm hc
        · exact m
      obtain ⟨a, b, hab, hna, hjoin⟩ := ih hcs
      refine ⟨c :: a, b, by simp [cut, hc, hab], ?_, by simp [hjoin]⟩
      intro m
      rcases List.mem_cons.mp m with e | m'
      · exact hc e.symm
      · exact hna m'

theorem splitN2_of_not_mem (sep : Char) (s : Str) (h : sep ∉ s) : splitN2 sep s = [s] := by
  simp [splitN2, cut_of_not_mem sep s h]

theorem splitN2_append (sep : Char) (a b : Str) (h : sep ∉ a) :
    splitN2 sep (a ++ sep :: b) = [a, b] := by
  simp [splitN2, cut_append sep a b h]

theorem split_of_not_mem (sep : Char) (s : Str) (h : sep ∉ s) : split sep s = [s] := by
  induction s with
  | nil => rfl
  | cons c cs ih =>
    have hc : ¬ c = sep := fun e => h (by simp [e])
    have hcs : sep ∉ cs := fun m => h (List.mem_cons_of_mem _ m)
    simp [split, hc, ih hcs]

theorem split_append (sep : Char) (a b : Str) (h : sep ∉ a) :
    split sep (a ++ sep :: b) = a :: split sep b := by
  induction a with
  | nil => simp [split]
  | cons c cs ih =>
    have hc : ¬ c = sep := fun e => h (by simp [e])
    have hcs : sep ∉ cs := fun m => h (List.mem_cons_of_mem _ m)
    simp [split, hc, ih hcs]

theorem split_joinWith (sep : Char) (pieces : List Str) (hne : pieces ≠ [])
    (h : ∀ piece ∈ pieces, sep ∉ piece) : split sep (joinWith sep pieces) = pieces := by
  induction pieces with
  | nil => exact absurd rfl hne
  | cons piece rest ih =>
    cases rest with
    | nil => simpa [joinWith] using split_of_not_mem sep piece (h piece (by simp))
    | cons next more =>
      have hrest : ∀ q ∈ next :: more, sep ∉ q := fun q hq => h q (List.mem_cons_of_mem _ hq)
      rw [joinWith, split_append sep piece _ (h piece (by simp)), ih (by simp) hrest]
      simp

theorem trim_eq_unquote (v : Str) : trimSuffix (trimPrefix v ['"']) ['"'] = unquote v := by
  have hpre : trimPrefix v ['"'] = (if v.head? = some '"' then v.tail else v) := by
    cases v with
    | nil => rfl
    | cons c cs =>
      by_cases hc : c = '"'
      · simp [trimPrefix, hasPrefix, List.isPrefixOf, hc]
      · have hc' : ¬ '"' = c := fun e => hc e.symm
        simp [trimPrefix, hasPrefix, List.isPrefixOf, hc, hc']
  unfold unquote
  simp only []
  rw [← hpre]
  generalize trimPrefix v ['"'] = w
  unfold trimSuffix hasSuffix
  by_cases hl : w.getLast? = some '"'
  · have hs : (['"'] : Str).isSuffixOf w = true := by
      rw [List.isSuffixOf_iff_suffix]
      obtain ⟨ys, hys⟩ := List.getLast?_eq_some_iff.mp hl
      exact ⟨ys, hys.symm⟩
    simp [hs, hl, List.dropLast_eq_take]
  · have hs : ¬ (['"'] : Str).isSuffixOf w = true := by
      rw [List.isSuffixOf_iff_suffix]
      rintro ⟨ys, hys⟩
      exact hl (List.getLast?_eq_some_iff.mpr ⟨ys, hys.symm⟩)
    simp [hs, hl]

/-! ## Facts about maps and the parser loop -/

theorem mapGet_of_not_mem {β : Type} (m : List (Str × β)) (k : Str)
    (h : k ∉ m.map Prod.fst) : mapGet m k = none := by
  induction m with
  | nil => rfl
  | cons e rest ih =>
    obtain ⟨k', v'⟩ := e
    have hk : ¬ k' = k := fun e => h (by
      show k ∈ k' :: rest.map Prod.fst
      rw [e]; exact List.mem_cons_self _ _)
    have hrest : k ∉ rest.map Prod.fst := fun hm => h (List.mem_cons_of_mem _ hm)
    simp [mapGet, hk, ih hrest]

theorem mapSet_of_not_mem (m : StrMap) (k v : Str) (h : k ∉ m.map Prod.fst) :
    mapSet m k v = m ++ [(k, v)] := by
  induction m with
  | nil => rfl
  | cons e rest ih =>
    obtain ⟨k', v'⟩ := e
    have hk : ¬ k' = k := fun e => h (by simp [e])
    have hrest : k ∉ rest.map Prod.fst := fun hm => h (List.mem_cons_of_mem _ hm)
    simp [mapSet, hk, ih hrest]

theorem objectifyStep_segment (ras : RealmAuthStruct) (k v : Str) (hk : '=' ∉ k) :
    objectifyStep ras (k ++ '=' :: v) =
      .ret (if k = realmKey then { ras with realm := unquote v }
        else { ras with params := mapSet ras.params k (unquote v) }) := by
  unfold objectifyStep
  simp only [splitN2_append '=' k v hk, index, List.get?, trim_eq_unquote]
  split <;> rfl

theorem objectifyLoop_pairs (pairs : List (Str × Str)) (hk : ∀ p ∈ pairs, '=' ∉ p.1)
    (hd : (pairs.map Prod.fst).Nodup) (ras : RealmAuthStruct)
    (hfresh : ∀ p ∈ pairs, p.1 ∉ ras.params.map Prod.fst) :
    objectifyLoop (pairs.map fun p => p.1 ++ '=' :: p.2) ras =
      .ret { realm :=
               match mapGet pairs realmKey with
               | some v => unquote v
               | none => ras.realm
             params := ras.params ++
               (pairs.filter fun p => decide (p.1 ≠ realmKey)).map
                 fun p => (p.1, unquote p.2) } := by
  induction pairs generalizing ras with
  | nil => simp [objectifyLoop, mapGet]
  | cons e rest ih =>
    obtain ⟨k, v⟩ := e
    have hk0 : '=' ∉ k := hk (k, v) (by simp)
    have hkr : ∀ p ∈ rest, '=' ∉ p.1 := fun p hp => hk p (List.mem_cons_of_mem _ hp)
    have hnd : k ∉ rest.map Prod.fst ∧ (rest.map Prod.fst).Nodup := by
      simpa using hd
    have hfr : ∀ p ∈ rest, p.1 ∉ ras.params.map Prod.fst :=
      fun p hp => hfresh p (List.mem_cons_of_mem _ hp)
    simp only [List.map_cons, objectifyLoop, objectifyStep_segment ras k v hk0]
    by_cases hrealm : k = realmKey
    · have hnone : mapGet rest realmKey = none :=
        mapGet_of_not_mem rest _ (hrealm ▸ hnd.1)
      simp only [hrealm, if_true]
      rw [ih hkr hnd.2 { ras with realm := unquote v } hfr]
      simp [mapGet, hnone]
    · have hk0f : k ∉ ras.params.map Prod.fst := hfresh (k, v) (by simp)
      simp only [hrealm, if_false]
      rw [ih hkr hnd.2 { ras with params := mapSet ras.params k (unquote v) } ?_]
      · simp [mapGet, hrealm, mapSet_of_not_mem _ _ _ hk0f]
      · intro p hp
        simp only [mapSet_of_not_mem _ _ _ hk0f, List.map_append, List.map_cons, List.map_nil,
          List.mem_append, List.mem_singleton, not_or]
        refine ⟨hfr p hp, ?_⟩
        intro e
        exact hnd.1 (e ▸ List.mem_map_of_mem Prod.fst hp)

theorem mapGet_objectifyRef (pairs : List (Str × Str)) (k : Str) :
    mapGet (objectifyRef pairs).params k =
      if k = realmKey then none else (mapGet pairs k).map unquote := by
  unfold objectifyRef
  simp only
  induction pairs with
  | nil => simp [mapGet]
  | cons e rest ih =>
    obtain ⟨k', v'⟩ := e
    by_cases hr : k' = realmKey
    · rw [List.filter_cons_of_neg (by simp [hr]), ih]
      by_cases hk : k = realmKey
      · simp [hk]
      · have hne : ¬ k' = k := fun e => hk (e ▸ hr)
        simp [hk, mapGet, hne]
    · rw [List.filter_cons_of_pos (by simp [hr]), List.map_cons]
      by_cases hkk : k' = k
      · have hk : ¬ k = realmKey := fun e => hr (hkk ▸ e)
        simp [mapGet, hkk, hk]
      · simp only [mapGet, hkk, if_false]
        exact ih

theorem nodup_keys_objectifyRef (pairs : List (Str × Str))
    (hd : (pairs.map Prod.fst).Nodup) :
    ((objectifyRef pairs).params.map Prod.fst).Nodup := by
  unfold objectifyRef
  simp only [List.map_map]
  have hsub : ((pairs.filter fun p => decide (p.1 ≠ realmKey)).map
      (Prod.fst ∘ fun p => (p.1, unquote p.2))).Sublist (pairs.map Prod.fst) := by
    have : (Prod.fst ∘ fun p : Str × Str => (p.1, unquote p.2)) = Prod.fst := rfl
    rw [this]
    exact (List.filter_sublist pairs).map Prod.fst
  exact hsub.nodup hd

/-! ## Credentials -/

theorem getAuthStruct_of_not_mem (auth : Str) (hne : auth ≠ []) (h : ':' ∉ auth) :
    getAuthStruct auth = .ret ({ user := auth, pass := [] }, none) := by
  simp [getAuthStruct, hne, splitN2_of_not_mem ':' auth h, index]

theorem getAuthStruct_of_mem (auth : Str) (h : ':' ∈ auth) :
    ∃ user pass, getAuthStruct auth = .ret ({ user := user, pass := pass }, none) ∧
      ':' ∉ user ∧ user ++ ':' :: pass = auth := by
  obtain ⟨a, b, hcut, hna, hjoin⟩ := cut_of_mem ':' auth h
  have hne : auth ≠ [] := by
    intro e
    rw [e] at h
    exact absurd h (List.not_mem_nil _)
  refine ⟨a, b, ?_, hna, hjoin⟩
  simp [getAuthStruct, hne, splitN2, hcut, index]

theorem getAuthStruct_total (auth : Str) : ∃ v, getAuthStruct auth = .ret v := by
  by_cases hne : auth = []
  · exact ⟨({ user := [], pass := [] }, some (errorsNew "invalid auth".toList)),
      by simp [getAuthStruct, hne]⟩
  · by_cases h : ':' ∈ auth
    · obtain ⟨user, pass, hg, _⟩ := getAuthStruct_of_mem auth h
      exact ⟨_, hg⟩
    · exact ⟨_, getAuthStruct_of_not_mem auth hne h⟩

/-- C9: `getAuthStruct` returns an error exactly for the empty string; a non-empty `auth`
without `:` gives user `auth` and an empty pass; an `auth` with `:` gives as user the part
before the first `:` (free of `:`) and as pass all that follows it, so that
`user ++ ":" ++ pass = auth`. -/
theorem getAuthStruct_characterised :
    (∀ auth : Str, (∃ v err, getAuthStruct auth = .ret (v, some err)) ↔ auth = []) ∧
    (∀ auth : Str, auth ≠ [] → ':' ∉ auth →
      getAuthStruct auth = .ret ({ user := auth, pass := [] }, none)) ∧
    (∀ auth : Str, ':' ∈ auth →
      ∃ user pass, getAuthStruct auth = .ret ({ user := user, pass := pass }, none) ∧
        ':' ∉ user ∧ user ++ ':' :: pass = auth) := by
  refine ⟨?_, getAuthStruct_of_not_mem, getAuthStruct_of_mem⟩
  intro auth
  constructor
  · rintro ⟨v, err, hv⟩
    by_contra hne
    by_cases h : ':' ∈ auth
    · obtain ⟨user, pass, hg, _⟩ := getAuthStruct_of_mem auth h
      rw [hg] at hv
      simp at hv
    · rw [getAuthStruct_of_not_mem auth hne h] at hv
      simp at hv
  · intro e
    exact ⟨{ user := [], pass := [] }, errorsNew "invalid auth".toList,
      by simp [getAuthStruct, e]⟩

/-- Witness of C9 at `john:some:pass`: the user is `john` and the pass keeps the second colon. -/
theorem getAuthStruct_characterised_witness :
    ':' ∈ "john:some:pass".toList ∧
    ∃ user pass, getAuthStruct "john:some:pass".toList
        = .ret ({ user := user, pass := pass }, none) ∧
      ':' ∉ user ∧ user ++ ':' :: pass = "john:some:pass".toList :=
  ⟨by decide, getAuthStruct_characterised.2.2 "john:some:pass".toList (by decide)⟩

/-! ## The challenge parser on well-formed input -/

theorem mapGet_of_mem_nodup (pairs : List (Str × Str)) (k v : Str)
    (hd : (pairs.map Prod.fst).Nodup) (h : (k, v) ∈ pairs) : mapGet pairs k = some v := by
  induction pairs with
  | nil => simp at h
  | cons e rest ih =>
    obtain ⟨k', v'⟩ := e
    have hnd : k' ∉ rest.map Prod.fst ∧ (rest.map Prod.fst).Nodup := by simpa using hd
    rcases List.mem_cons.mp h with e | hm
    · simp only [Prod.mk.injEq] at e
      simp [mapGet, e.1, e.2]
    · have hne : ¬ k' = k := fun e => hnd.1 (e ▸ List.mem_map_of_mem Prod.fst hm)
      simp [mapGet, hne, ih hnd.2 hm]

theorem objectify_challengeOf (pairs : List (Str × Str)) (hne : pairs ≠ [])
    (hkeys : ∀ p ∈ pairs, ',' ∉ p.1 ∧ '=' ∉ p.1) (hvals : ∀ p ∈ pairs, ',' ∉ p.2)
    (hdistinct : (pairs.map Prod.fst).Nodup) :
    objectify (challengeOf pairs) = .ret (objectifyRef pairs) := by
  unfold objectify challengeOf
  rw [split_joinWith ',' _ (by simpa using hne)]
  · rw [objectifyLoop_pairs pairs (fun p hp => (hkeys p hp).2) hdistinct _ (by simp)]
    simp [objectifyRef]
  · intro piece hpiece
    obtain ⟨p, hp, rfl⟩ := List.mem_map.mp hpiece
    have h1 := (hkeys p hp).1
    have h2 := hvals p hp
    simp only [List.mem_append, List.mem_cons, not_or]
    exact ⟨h1, by decide, h2⟩

/-- C1: on the segments `key=value` of a non-empty list of pairs, joined by `,`, with keys
free of `,` and `=` and pairwise distinct and values free of `,`, `objectify` returns the
reference challenge: its realm is the unquoted value of the `realm` pair and its params map
every other key, and only those, to its unquoted value; `realm` is never a key of params. -/
theorem objectify_wellFormed (pairs : List (Str × Str)) (hne : pairs ≠ [])
    (hkeys : ∀ p ∈ pairs, ',' ∉ p.1 ∧ '=' ∉ p.1) (hvals : ∀ p ∈ pairs, ',' ∉ p.2)
    (hdistinct : (pairs.map Prod.fst).Nodup) :
    ∃ ras, objectify (challengeOf pairs) = .ret ras ∧ ras = objectifyRef pairs ∧
      (∀ v, (realmKey, v) ∈ pairs → ras.realm = unquote v) ∧
      ((∀ v, (realmKey, v) ∉ pairs) → ras.realm = []) ∧
      (∀ k, mapGet ras.params k =
        if k = realmKey then none else (mapGet pairs k).map unquote) ∧
      (ras.params.map Prod.fst).Nodup := by
  refine ⟨objectifyRef pairs, objectify_challengeOf pairs hne hkeys hvals hdistinct, rfl,
    ?_, ?_, mapGet_objectifyRef pairs, nodup_keys_objectifyRef pairs hdistinct⟩
  · intro v hv
    simp [objectifyRef, mapGet_of_mem_nodup pairs _ v hdistinct hv]
  · intro hno
    have hnone : mapGet pairs realmKey = none := by
      apply mapGet_of_not_mem
      intro hm
      obtain ⟨p, hp, hp1⟩ := List.mem_map.mp hm
      exact hno p.2 (by rw [← hp1]; exact hp)
    simp [objectifyRef, hnone]

/-- Witness of C1 at `realm="R",k1="v1",k2="v2"`: realm `R`, params `k1: v1` and `k2: v2`. -/
theorem objectify_wellFormed_witness :
    ∃ ras, objectify "realm=\"R\",k1=\"v1\",k2=\"v2\"".toList = .ret ras ∧
      ras = { realm := "R".toList,
              params := [("k1".toList, "v1".toList), ("k2".toList, "v2".toList)] } ∧
      (∀ v, (realmKey, v) ∈
          [("realm".toList, "\"R\"".toList), ("k1".toList, "\"v1\"".toList),
            ("k2".toList, "\"v2\"".toList)] → ras.realm = unquote v) ∧
      ((∀ v, (realmKey, v) ∉
          [("realm".toList, "\"R\"".toList), ("k1".toList, "\"v1\"".toList),
            ("k2".toList, "\"v2\"".toList)]) → ras.realm = []) ∧
      (∀ k, mapGet ras.params k =
        if k = realmKey then none
        else (mapGet [("realm".toList, "\"R\"".toList), ("k1".toList, "\"v1\"".toList),
            ("k2".toList, "\"v2\"".toList)] k).map unquote) ∧
      (ras.params.map Prod.fst).Nodup :=
  objectify_wellFormed
    [("realm".toList, "\"R\"".toList), ("k1".toList, "\"v1\"".toList),
      ("k2".toList, "\"v2\"".toList)]
    (by decide) (by decide) (by decide) (by decide)

/-! ## The request protocol -/

theorem newRequest_of_built (env : Env) (method url : Str) (body : Option Str)
    (h : env.newRequestErr method url = none) :
    newRequest env method url body = some (buildRequest method url body) := by
  unfold newRequest
  rw [h]

theorem newRequest_of_error (env : Env) (method url : Str) (body : Option Str)
    (h : env.newRequestErr method url ≠ none) : newRequest env method url body = none := by
  unfold newRequest
  cases herr : env.newRequestErr method url with
  | none => exact absurd herr h
  | some e => rfl

/-- When `http.NewRequest` rejects the method or the URL, `doreq` stops with a nil
dereference before anything is sent. -/
theorem doreq_without_request (env : Env) (method url : Str) (headers : List Str)
    (auth realmAuth body : Str) (h : env.newRequestErr method url ≠ none) :
    doreq env method url headers auth realmAuth body = ⟨.fault .nilDereference, []⟩ := by
  obtain ⟨⟨authStruct, err⟩, hv⟩ := getAuthStruct_total auth
  unfold doreq
  rw [hv]
  simp only [newRequest_of_error env method url _ h]

/-- The method `BAD METHOD`, which `http.NewRequest` rejects, makes `doreq` stop with a nil
dereference and no send. -/
theorem doreq_bad_method :
    doreq testEnv "BAD METHOD".toList "http://origin/realm".toList [] [] [] [] =
      ⟨.fault .nilDereference, []⟩ := by
  decide

theorem doreq_eq (env : Env) (method url : Str) (headers : List Str)
    (auth realmAuth body : Str) (hbuilt : env.newRequestErr method url = none) :
    doreq env method url headers auth realmAuth body =
      match env.client (primaryRequest env method url auth body) with
      | .fail err resp => ⟨.ret (.fail err resp), [primaryRequest env method url auth body]⟩
      | .ok resp =>
        if resp.status = 401 ∧ realmAuth ≠ [] then
          if resp.headerGet wwwAuthenticate ≠ [] ∧
              hasPrefix (resp.headerGet wwwAuthenticate) bearerScheme = true then
            match index (fields (resp.headerGet wwwAuthenticate)) 1 with
            | .fault p => ⟨.fault p, [primaryRequest env method url auth body]⟩
            | .ret arg =>
              ⟨(doRealmReq env method url body auth realmAuth arg).out,
                primaryRequest env method url auth body ::
                  (doRealmReq env method url body auth realmAuth arg).sends⟩
          else ⟨.ret (.ok resp), [primaryRequest env method url auth body]⟩
        else ⟨.ret (.ok resp), [primaryRequest env method url auth body]⟩ := by
  obtain ⟨⟨authStruct, err⟩, hv⟩ := getAuthStruct_total auth
  unfold doreq primaryRequest
  rw [hv]
  simp only [newRequest_of_built env method url _ hbuilt]
  cases err <;> rfl

theorem headerGet_of_absent (resp : Response) (key : Str) (h : mapGet resp.header key = none) :
    resp.headerGet key = [] := by
  simp [Response.headerGet, h]

theorem ne_nil_of_hasPrefix_bearer (s : Str) (h : hasPrefix s bearerScheme = true) :
    s ≠ [] := by
  intro e
  rw [e] at h
  revert h
  decide

/-- C4: for a method and a URL from which `http.NewRequest` builds the request (the
validated input of the specification): when the primary send fails, or its response is
not a 401, or `realmAuth` is empty, or the response has no `Www-Authenticate` field, or
that field does not start with `Bearer`, `doreq` returns the reply of the primary send as
it is and sends nothing else. -/
theorem doreq_not_followed (env : Env) (method url : Str) (headers : List Str)
    (auth realmAuth body : Str) (hbuilt : env.newRequestErr method url = none)
    (h : (∃ err resp, env.client (primaryRequest env method url auth body) = .fail err resp) ∨
      (∃ resp, env.client (primaryRequest env method url auth body) = .ok resp ∧
        (resp.status ≠ 401 ∨ realmAuth = [] ∨
          mapGet resp.header wwwAuthenticate = none ∨
          hasPrefix (resp.headerGet wwwAuthenticate) bearerScheme = false))) :
    doreq env method url headers auth realmAuth body =
      ⟨.ret (env.client (primaryRequest env method url auth body)),
        [primaryRequest env method url auth body]⟩ := by
  rw [doreq_eq env method url headers auth realmAuth body hbuilt]
  rcases h with ⟨err, resp, hfail⟩ | ⟨resp, hok, hcond⟩
  · rw [hfail]
  · rw [hok]
    rcases hcond with hs | hr | hh | hb
    · simp [hs]
    · simp [hr]
    · simp [headerGet_of_absent resp _ hh]
    · simp [hb]

/-- Witness of C4: the origin answers 401 with `Www-Authenticate: Basic realm="x"`; with a
realm credential supplied, `doreq` returns that 401 after the one primary send. -/
theorem doreq_not_followed_witness :
    doreq basicEnv "GET".toList "http://origin/realm".toList [] [] "rjohn:rsomepass".toList []
      = ⟨.ret (.ok { status := 401,
                     header := [(wwwAuthenticate, ["Basic realm=\"x\"".toList])],
                     body := [] }),
         [⟨"GET".toList, "http://origin/realm".toList, some [], []⟩]⟩ :=
  doreq_not_followed basicEnv "GET".toList "http://origin/realm".toList [] []
    "rjohn:rsomepass".toList [] (by decide)
    (Or.inr ⟨{ status := 401, header := [(wwwAuthenticate, ["Basic realm=\"x\"".toList])],
               body := [] }, by decide, Or.inr (Or.inr (Or.inr (by decide)))⟩)

theorem index_of_get? {α : Type} (xs : List α) (i : Nat) (x : α) (h : xs.get? i = some x) :
    index xs i = .ret x := by
  unfold index
  rw [h]

theorem doreq_followed (env : Env) (method url : Str) (headers : List Str)
    (auth realmAuth body : Str) (resp : Response) (arg : Str)
    (hbuilt : env.newRequestErr method url = none)
    (hprimary : env.client (primaryRequest env method url auth body) = .ok resp)
    (hstatus : resp.status = 401) (hrealmAuth : realmAuth ≠ [])
    (hbearer : hasPrefix (resp.headerGet wwwAuthenticate) bearerScheme = true)
    (harg : (fields (resp.headerGet wwwAuthenticate)).get? 1 = some arg) :
    doreq env method url headers auth realmAuth body =
      ⟨(doRealmReq env method url body auth realmAuth arg).out,
        primaryRequest env method url auth body ::
          (doRealmReq env method url body auth realmAuth arg).sends⟩ := by
  rw [doreq_eq env method url headers auth realmAuth body hbuilt, hprimary]
  simp only [hstatus, hrealmAuth, hbearer, ne_nil_of_hasPrefix_bearer _ hbearer,
    index_of_get? _ _ _ harg, ne_eq, not_false_eq_true, and_self, if_true]

theorem doRealmReq_of_token_error (env : Env) (method url body auth realmAuth authCmd : Str)
    (ras : RealmAuthStruct) (creds : UserAuthStruct) (cerr : Option GoError)
    (t : Str) (err : GoError) (sent : List Request)
    (hparse : objectify authCmd = .ret ras)
    (hcreds : getAuthStruct realmAuth = .ret (creds, cerr))
    (htok : authenticateBearer env creds ras = ⟨.ret (t, some err), sent⟩) :
    doRealmReq env method url body auth realmAuth authCmd = ⟨.ret (.fail err none), sent⟩ := by
  unfold doRealmReq
  rw [hparse, hcreds]
  simp only [htok]

theorem doRealmReq_of_token (env : Env) (method url body auth realmAuth authCmd : Str)
    (ras : RealmAuthStruct) (creds : UserAuthStruct) (cerr : Option GoError)
    (t : Str) (sent : List Request)
    (hbuilt : env.newRequestErr method url = none)
    (hparse : objectify authCmd = .ret ras)
    (hcreds : getAuthStruct realmAuth = .ret (creds, cerr))
    (htok : authenticateBearer env creds ras = ⟨.ret (t, none), sent⟩) :
    doRealmReq env method url body auth realmAuth authCmd =
      ⟨.ret (env.client (retryRequest method url body t)),
        sent ++ [retryRequest method url body t]⟩ := by
  unfold doRealmReq
  rw [hparse, hcreds]
  simp only [htok, newRequest_of_built env method url _ hbuilt]
  rfl

theorem authenticateBearer_token (env : Env) (creds : UserAuthStruct) (ras : RealmAuthStruct)
    (u : Str) (tokResp : Response) (data : List (Str × JValue)) (t : Str)
    (hurl : env.realmURL ras.realm ras.params = .ok u)
    (htokreq : env.newRequestErr getMethod u = none)
    (htoken : env.client (tokenRequest env creds u) = .ok tokResp)
    (h200 : tokResp.status = 200)
    (hdecode : env.decode tokResp.body = .ok data)
    (ht : mapGet data tokenKey = some (.string t)) :
    authenticateBearer env creds ras = ⟨.ret (t, none), [tokenRequest env creds u]⟩ := by
  unfold tokenRequest at htoken
  unfold authenticateBearer
  simp only [hurl, newRequest_of_built env getMethod u _ htokreq, htoken, h200, hdecode, ht,
    ne_eq, not_true_eq_false, if_false]
  rfl

theorem authenticateBearer_failure (env : Env) (creds : UserAuthStruct) (ras : RealmAuthStruct)
    (u : Str) (hurl : env.realmURL ras.realm ras.params = .ok u)
    (htokreq : env.newRequestErr getMethod u = none)
    (hfail : (∃ err r, env.client (tokenRequest env creds u) = .fail err r) ∨
      (∃ r, env.client (tokenRequest env creds u) = .ok r ∧ r.status ≠ 200)) :
    ∃ err, authenticateBearer env creds ras = ⟨.ret ([], some err), [tokenRequest env creds u]⟩ ∧
      (∀ e r, env.client (tokenRequest env creds u) = .fail e r → err = e) ∧
      (∀ r, env.client (tokenRequest env creds u) = .ok r →
        err = errorsNew ("Failed to get token from ".toList ++ ras.realm)) := by
  rcases hfail with ⟨err, r, hf⟩ | ⟨r, hok, hs⟩
  · refine ⟨err, ?_, ?_, ?_⟩
    · have hf' := hf
      unfold tokenRequest at hf'
      unfold authenticateBearer
      simp only [hurl, newRequest_of_built env getMethod u _ htokreq, hf']
      rfl
    · intro e r' he
      rw [hf] at he
      cases he
      rfl
    · intro r' he
      rw [hf] at he
      cases he
  · refine ⟨errorsNew ("Failed to get token from ".toList ++ ras.realm), ?_, ?_, ?_⟩
    · have hok' := hok
      unfold tokenRequest at hok'
      unfold authenticateBearer
      simp only [hurl, newRequest_of_built env getMethod u _ htokreq, hok', hs, ne_eq,
        not_false_eq_true, if_true]
      rfl
    · intro e r' he
      rw [hok] at he
      cases he
    · intro _ _
      rfl

theorem authenticateBearer_sends_le (env : Env) (creds : UserAuthStruct)
    (ras : RealmAuthStruct) : (authenticateBearer env creds ras).sends.length ≤ 1 := by
  unfold authenticateBearer
  split
  · simp
  · split
    · simp
    · dsimp only
      split
      · simp
      · split <;> (try split) <;> (try split) <;> simp

theorem doRealmReq_sends_le (env : Env) (method url body auth realmAuth authCmd : Str) :
    (doRealmReq env method url body auth realmAuth authCmd).sends.length ≤ 2 := by
  unfold doRealmReq
  split
  · simp
  · split
    · simp
    · rename_i realmAuthStruct _ _ userAuthStruct _ _
      have h := authenticateBearer_sends_le env userAuthStruct realmAuthStruct
      dsimp only
      split
      · simp; omega
      · simp; omega
      · split <;> simp <;> omega

theorem doreq_sends_le (env : Env) (method url : Str) (headers : List Str)
    (auth realmAuth body : Str) :
    (doreq env method url headers auth realmAuth body).sends.length ≤ 3 := by
  unfold doreq
  split
  · simp
  · split
    · simp
    · dsimp only
      split
      · simp
      · split
        · split
          · split
            · simp
            · rename_i arg _
              have h := doRealmReq_sends_le env method url body auth realmAuth arg
              simp
              omega
          · simp
        · simp

theorem doreq_retry (env : Env) (method url : Str) (headers : List Str)
    (auth realmAuth body : Str) (resp : Response) (arg : Str) (ras : RealmAuthStruct)
    (creds : UserAuthStruct) (cerr : Option GoError) (u : Str) (tokResp : Response)
    (data : List (Str × JValue)) (t : Str)
    (hbuilt : env.newRequestErr method url = none)
    (hprimary : env.client (primaryRequest env method url auth body) = .ok resp)
    (hstatus : resp.status = 401) (hrealmAuth : realmAuth ≠ [])
    (hbearer : hasPrefix (resp.headerGet wwwAuthenticate) bearerScheme = true)
    (harg : (fields (resp.headerGet wwwAuthenticate)).get? 1 = some arg)
    (hparse : objectify arg = .ret ras)
    (hcreds : getAuthStruct realmAuth = .ret (creds, cerr))
    (hurl : env.realmURL ras.realm ras.params = .ok u)
    (htokreq : env.newRequestErr getMethod u = none)
    (htoken : env.client (tokenRequest env creds u) = .ok tokResp)
    (h200 : tokResp.status = 200)
    (hdecode : env.decode tokResp.body = .ok data)
    (ht : mapGet data tokenKey = some (.string t)) :
    doreq env method url headers auth realmAuth body =
      ⟨.ret (env.client (retryRequest method url body t)),
        [primaryRequest env method url auth body, tokenRequest env creds u,
          retryRequest method url body t]⟩ := by
  rw [doreq_followed env method url headers auth realmAuth body resp arg hbuilt hprimary
    hstatus hrealmAuth hbearer harg]
  rw [doRealmReq_of_token env method url body auth realmAuth arg ras creds cerr t
    [tokenRequest env creds u] hbuilt hparse hcreds
    (authenticateBearer_token env creds ras u tokResp data t hurl htokreq htoken h200
      hdecode ht)]
  rfl

/-- The follow-through as the tests run it: the realm issues the token `stale`, the retry
is answered with a further 401 and a `Bearer` challenge, and that reply is returned after
three sends. -/
theorem doreq_retry_not_followed :
    doreq staleEnv "GET".toList "http://origin/realm".toList [] [] "rjohn:rsomepass".toList []
      = ⟨.ret (.ok { status := 401,
                     header := [(wwwAuthenticate, ["Bearer invalid_token".toList])],
                     body := [] }),
         [⟨"GET".toList, "http://origin/realm".toList, some [], []⟩,
          ⟨"GET".toList, "http://realm?service=foo.bar.me".toList, none,
            [(authorization, "Basic rjohn:rsomepass".toList)]⟩,
          ⟨"GET".toList, "http://origin/realm".toList, some [],
            [(authorization, "Bearer stale".toList)]⟩]⟩ := by
  decide

/-! ### Well-formed challenges without white space -/

theorem fieldsFrom_of_no_space (a cur : Str) (ha : ∀ c ∈ a, isSpace c = false) :
    fieldsFrom a cur = if (cur.reverse ++ a).isEmpty then [] else [cur.reverse ++ a] := by
  induction a generalizing cur with
  | nil => simp [fieldsFrom]
  | cons c a ih =>
    have hc : isSpace c = false := ha c (by simp)
    have hrest : ∀ d ∈ a, isSpace d = false := fun d hd => ha d (List.mem_cons_of_mem _ hd)
    simp only [fieldsFrom, hc, Bool.false_eq_true, if_false]
    rw [ih (c :: cur) hrest]
    simp

theorem fieldsFrom_run (a cur rest : Str) (sp : Char) (ha : ∀ c ∈ a, isSpace c = false)
    (hsp : isSpace sp = true) :
    fieldsFrom (a ++ sp :: rest) cur =
      if (cur.reverse ++ a).isEmpty then fieldsFrom rest []
      else (cur.reverse ++ a) :: fieldsFrom rest [] := by
  induction a generalizing cur with
  | nil => simp [fieldsFrom, hsp]
  | cons c a ih =>
    have hc : isSpace c = false := ha c (by simp)
    have hrest : ∀ d ∈ a, isSpace d = false := fun d hd => ha d (List.mem_cons_of_mem _ hd)
    have hstep : fieldsFrom (c :: a ++ sp :: rest) cur =
        fieldsFrom (a ++ sp :: rest) (c :: cur) := by
      show fieldsFrom (c :: (a ++ sp :: rest)) cur = _
      simp only [fieldsFrom, hc, Bool.false_eq_true, if_false]
    rw [hstep, ih (c :: cur) hrest]
    simp

/-- For a value `Bearer`, one space, and a non-empty argument free of white space, the
second field of `strings.Fields` is the whole argument. -/
theorem fields_bearer (c : Str) (hne : c ≠ []) (hc : ∀ x ∈ c, isSpace x = false) :
    fields (bearerScheme ++ ' ' :: c) = [bearerScheme, c] := by
  unfold fields
  rw [fieldsFrom_run bearerScheme [] c ' ' (by decide) (by decide)]
  rw [fieldsFrom_of_no_space c [] hc]
  have h1 : (([] : Str).reverse ++ bearerScheme).isEmpty = false := by decide
  have h2 : (([] : Str).reverse ++ c).isEmpty = false := by
    cases c with
    | nil => exact absurd rfl hne
    | cons x xs => rfl
  simp only [h1, h2, Bool.false_eq_true, if_false]
  rfl

theorem joinWith_no_space (pieces : List Str)
    (h : ∀ piece ∈ pieces, ∀ x ∈ piece, isSpace x = false) :
    ∀ x ∈ joinWith ',' pieces, isSpace x = false := by
  induction pieces with
  | nil => intro x hx; simp [joinWith] at hx
  | cons piece rest ih =>
    have hrest : ∀ q ∈ rest, ∀ x ∈ q, isSpace x = false :=
      fun q hq => h q (List.mem_cons_of_mem _ hq)
    cases rest with
    | nil =>
      intro x hx
      exact h piece (by simp) x (by simpa [joinWith] using hx)
    | cons next more =>
      intro x hx
      have hjoin : joinWith ',' (piece :: next :: more) =
          piece ++ ',' :: joinWith ',' (next :: more) := rfl
      rw [hjoin, List.mem_append, List.mem_cons] at hx
      rcases hx with hx | hx | hx
      · exact h piece (by simp) x hx
      · rw [hx]; decide
      · exact ih hrest x hx

theorem challengeOf_no_space (pairs : List (Str × Str))
    (h : ∀ p ∈ pairs, (∀ x ∈ p.1, isSpace x = false) ∧ (∀ x ∈ p.2, isSpace x = false)) :
    ∀ x ∈ challengeOf pairs, isSpace x = false := by
  apply joinWith_no_space
  intro piece hpiece x hx
  obtain ⟨p, hp, rfl⟩ := List.mem_map.mp hpiece
  rw [List.mem_append, List.mem_cons] at hx
  rcases hx with hx | hx | hx
  · exact (h p hp).1 x hx
  · rw [hx]; decide
  · exact (h p hp).2 x hx

theorem challengeOf_ne_nil (pairs : List (Str × Str)) (hne : pairs ≠ []) :
    challengeOf pairs ≠ [] := by
  cases pairs with
  | nil => exact absurd rfl hne
  | cons p rest =>
    cases rest with
    | nil => simp [challengeOf, joinWith]
    | cons q more => simp [challengeOf, joinWith]

/-- The follow-through on a well-formed challenge free of white space: when the 401
carries the value `Bearer`, a space and the segments `key=value` of well-formed pairs, and
the realm answers the token request for those pairs with 200 and the token `t`, `doreq`
returns the reply of the retry after the sends primary, token, retry. -/
theorem doreq_follows_wellFormed (env : Env) (method url : Str) (headers : List Str)
    (auth realmAuth body : Str) (resp : Response) (pairs : List (Str × Str))
    (creds : UserAuthStruct) (cerr : Option GoError) (u : Str) (tokResp : Response)
    (data : List (Str × JValue)) (t : Str)
    (hbuilt : env.newRequestErr method url = none)
    (hprimary : env.client (primaryRequest env method url auth body) = .ok resp)
    (hstatus : resp.status = 401) (hrealmAuth : realmAuth ≠ [])
    (hheader : resp.headerGet wwwAuthenticate = bearerScheme ++ ' ' :: challengeOf pairs)
    (hne : pairs ≠ [])
    (hkeys : ∀ p ∈ pairs, ',' ∉ p.1 ∧ '=' ∉ p.1) (hvals : ∀ p ∈ pairs, ',' ∉ p.2)
    (hdistinct : (pairs.map Prod.fst).Nodup)
    (hspace : ∀ p ∈ pairs, (∀ x ∈ p.1, isSpace x = false) ∧ (∀ x ∈ p.2, isSpace x = false))
    (hcreds : getAuthStruct realmAuth = .ret (creds, cerr))
    (hurl : env.realmURL (objectifyRef pairs).realm (objectifyRef pairs).params = .ok u)
    (htokreq : env.newRequestErr getMethod u = none)
    (htoken : env.client (tokenRequest env creds u) = .ok tokResp)
    (h200 : tokResp.status = 200)
    (hdecode : env.decode tokResp.body = .ok data)
    (ht : mapGet data tokenKey = some (.string t)) :
    doreq env method url headers auth realmAuth body =
      ⟨.ret (env.client (retryRequest method url body t)),
        [primaryRequest env method url auth body, tokenRequest env creds u,
          retryRequest method url body t]⟩ := by
  have hf : fields (resp.headerGet wwwAuthenticate) = [bearerScheme, challengeOf pairs] := by
    rw [hheader]
    exact fields_bearer _ (challengeOf_ne_nil pairs hne) (challengeOf_no_space pairs hspace)
  have hbearer : hasPrefix (resp.headerGet wwwAuthenticate) bearerScheme = true := by
    rw [hheader]
    simp [hasPrefix]
  exact doreq_retry env method url headers auth realmAuth body resp (challengeOf pairs)
    (objectifyRef pairs) creds cerr u tokResp data t hbuilt hprimary hstatus hrealmAuth
    hbearer (by rw [hf]; rfl) (objectify_challengeOf pairs hne hkeys hvals hdistinct) hcreds
    hurl htokreq htoken h200 hdecode ht

/-- C6 fails on the code: the pairs `realm="http://realm"` and ` service="foo.bar.me"` are
well formed and `objectify` accepts their challenge, the realm answers the token request
for them with 200 and a token, but for the 401 with
`Www-Authenticate: Bearer realm="http://realm", service="foo.bar.me"` `doreq` hands only
`realm="http://realm",` to the parser and stops with an index-out-of-range panic after the
primary send: no token request, no retry, no result. -/
theorem spaced_challenge_panics :
    (spacedPairs ≠ [] ∧ (∀ p ∈ spacedPairs, ',' ∉ p.1 ∧ '=' ∉ p.1) ∧
      (∀ p ∈ spacedPairs, ',' ∉ p.2) ∧ (spacedPairs.map Prod.fst).Nodup) ∧
    objectify (challengeOf spacedPairs) =
      .ret { realm := "http://realm".toList,
             params := [(" service".toList, "foo.bar.me".toList)] } ∧
    (challengeEnv spacedHeader).client
        (tokenRequest (challengeEnv spacedHeader)
          { user := "rjohn".toList, pass := "rsomepass".toList }
          "http://realm? service=foo.bar.me".toList) =
      .ok { status := 200, header := [], body := "\x7b\"token\":\"abc123\"\x7d".toList } ∧
    index (fields spacedHeader) 1 = .ret "realm=\"http://realm\",".toList ∧
    doreq (challengeEnv spacedHeader) "GET".toList "http://origin/realm".toList [] []
        "rjohn:rsomepass".toList [] =
      ⟨.fault .indexOutOfRange, [⟨"GET".toList, "http://origin/realm".toList, some [], []⟩]⟩ := by
  decide

/-- C7: in a run in which `http.NewRequest` builds the requests, when the token request
fails at transport level or is answered with a status other than 200, `authenticateBearer`
returns the empty token with an error, and `doRealmReq` and `doreq` return that error with
a nil response: no retry is sent and the 401 of the primary send is not returned. -/
theorem token_failure_is_final (env : Env) (method url : Str) (headers : List Str)
    (auth realmAuth body : Str) (resp : Response) (arg : Str) (ras : RealmAuthStruct)
    (creds : UserAuthStruct) (cerr : Option GoError) (u : Str)
    (hbuilt : env.newRequestErr method url = none)
    (hprimary : env.client (primaryRequest env method url auth body) = .ok resp)
    (hstatus : resp.status = 401) (hrealmAuth : realmAuth ≠ [])
    (hbearer : hasPrefix (resp.headerGet wwwAuthenticate) bearerScheme = true)
    (harg : (fields (resp.headerGet wwwAuthenticate)).get? 1 = some arg)
    (hparse : objectify arg = .ret ras)
    (hcreds : getAuthStruct realmAuth = .ret (creds, cerr))
    (hurl : env.realmURL ras.realm ras.params = .ok u)
    (htokreq : env.newRequestErr getMethod u = none)
    (hfail : (∃ err r, env.client (tokenRequest env creds u) = .fail err r) ∨
      (∃ r, env.client (tokenRequest env creds u) = .ok r ∧ r.status ≠ 200)) :
    ∃ err,
      authenticateBearer env creds ras = ⟨.ret ([], some err), [tokenRequest env creds u]⟩ ∧
      doRealmReq env method url body auth realmAuth arg =
        ⟨.ret (.fail err none), [tokenRequest env creds u]⟩ ∧
      doreq env method url headers auth realmAuth body =
        ⟨.ret (.fail err none),
          [primaryRequest env method url auth body, tokenRequest env creds u]⟩ ∧
      (∀ e r, env.client (tokenRequest env creds u) = .fail e r → err = e) ∧
      (∀ r, env.client (tokenRequest env creds u) = .ok r →
        err = errorsNew ("Failed to get token from ".toList ++ ras.realm)) := by
  obtain ⟨err, hab, he1, he2⟩ := authenticateBearer_failure env creds ras u hurl htokreq hfail
  have hreq : doRealmReq env method url body auth realmAuth arg =
      ⟨.ret (.fail err none), [tokenRequest env creds u]⟩ :=
    doRealmReq_of_token_error env method url body auth realmAuth arg ras creds cerr [] err _
      hparse hcreds hab
  refine ⟨err, hab, hreq, ?_, he1, he2⟩
  rw [doreq_followed env method url headers auth realmAuth body resp arg hbuilt hprimary
    hstatus hrealmAuth hbearer harg, hreq]

/-- Witness of C7: the wrong realm credentials of `TestFollowRealmBadAuth`; the realm
answers 401 and `doreq` returns an error after the primary and the token send. -/
theorem token_failure_is_final_witness :
    ∃ err,
      authenticateBearer testEnv { user := "asasas".toList, pass := "asqwhqhsqs".toList }
          { realm := "http://realm".toList,
            params := [("service".toList, "foo.bar.me".toList)] } =
        ⟨.ret ([], some err),
          [tokenRequest testEnv { user := "asasas".toList, pass := "asqwhqhsqs".toList }
            "http://realm?service=foo.bar.me".toList]⟩ ∧
      doRealmReq testEnv "GET".toList "http://origin/realm".toList [] []
          "asasas:asqwhqhsqs".toList "realm=\"http://realm\",service=\"foo.bar.me\"".toList =
        ⟨.ret (.fail err none),
          [tokenRequest testEnv { user := "asasas".toList, pass := "asqwhqhsqs".toList }
            "http://realm?service=foo.bar.me".toList]⟩ ∧
      doreq testEnv "GET".toList "http://origin/realm".toList [] [] "asasas:asqwhqhsqs".toList [] =
        ⟨.ret (.fail err none),
          [primaryRequest testEnv "GET".toList "http://origin/realm".toList [] [],
            tokenRequest testEnv { user := "asasas".toList, pass := "asqwhqhsqs".toList }
              "http://realm?service=foo.bar.me".toList]⟩ ∧
      (∀ e r, testEnv.client
          (tokenRequest testEnv { user := "asasas".toList, pass := "asqwhqhsqs".toList }
            "http://realm?service=foo.bar.me".toList) = .fail e r → err = e) ∧
      (∀ r, testEnv.client
          (tokenRequest testEnv { user := "asasas".toList, pass := "asqwhqhsqs".toList }
            "http://realm?service=foo.bar.me".toList) = .ok r →
        err = errorsNew ("Failed to get token from ".toList ++ "http://realm".toList)) :=
  token_failure_is_final testEnv "GET".toList "http://origin/realm".toList [] []
    "asasas:asqwhqhsqs".toList []
    { status := 401, header := [(wwwAuthenticate, [bearerHeader])], body := [] }
    "realm=\"http://realm\",service=\"foo.bar.me\"".toList
    { realm := "http://realm".toList, params := [("service".toList, "foo.bar.me".toList)] }
    { user := "asasas".toList, pass := "asqwhqhsqs".toList } none
    "http://realm?service=foo.bar.me".toList
    (by decide) (by decide) (by decide) (by decide) (by decide) (by decide) (by decide)
    (by decide) rfl (by decide)
    (Or.inr ⟨{ status := 401, header := [], body := [] }, by decide, by decide⟩)

/-! ## A challenge without a realm -/

theorem objectifyStep_realm (ras ras' : RealmAuthStruct) (seg : Str)
    (h : objectifyStep ras seg = .ret ras') (hk : (cut '=' seg).1 ≠ realmKey) :
    ras'.realm = ras.realm := by
  unfold objectifyStep splitN2 at h
  rcases hc : cut '=' seg with ⟨before, after⟩
  rw [hc] at h hk
  cases after with
  | none => simp [index] at h
  | some rest =>
    have hb : ¬ before = realmKey := hk
    simp only [index, List.get?, hb, if_false] at h
    cases h
    rfl

theorem objectifyLoop_realm (segs : List Str) (ras ras' : RealmAuthStruct)
    (h : objectifyLoop segs ras = .ret ras')
    (hk : ∀ seg ∈ segs, (cut '=' seg).1 ≠ realmKey) : ras'.realm = ras.realm := by
  induction segs generalizing ras with
  | nil =>
    simp only [objectifyLoop] at h
    cases h
    rfl
  | cons seg rest ih =>
    simp only [objectifyLoop] at h
    cases hstep : objectifyStep ras seg with
    | fault p => rw [hstep] at h; cases h
    | ret mid =>
      rw [hstep] at h
      rw [ih mid h (fun q hq => hk q (List.mem_cons_of_mem _ hq))]
      exact objectifyStep_realm ras mid seg hstep (hk seg (by simp))

theorem objectifyStep_of_mem (ras : RealmAuthStruct) (seg : Str) (h : '=' ∈ seg) :
    ∃ ras', objectifyStep ras seg = .ret ras' := by
  obtain ⟨k, v, _, hk, hjoin⟩ := cut_of_mem '=' seg h
  rw [← hjoin, objectifyStep_segment ras k v hk]
  exact ⟨_, rfl⟩

theorem objectifyLoop_total (segs : List Str) (ras : RealmAuthStruct)
    (h : ∀ seg ∈ segs, '=' ∈ seg) : ∃ ras', objectifyLoop segs ras = .ret ras' := by
  induction segs generalizing ras with
  | nil => exact ⟨ras, rfl⟩
  | cons seg rest ih =>
    obtain ⟨mid, hmid⟩ := objectifyStep_of_mem ras seg (h seg (by simp))
    obtain ⟨last, hlast⟩ := ih mid (fun q hq => h q (List.mem_cons_of_mem _ hq))
    exact ⟨last, by simp only [objectifyLoop, hmid, hlast]⟩

theorem client_of_no_scheme (env : Env) (r : Request) (h : env.scheme r.url = []) :
    env.client r = .fail (env.schemeError r) none := by
  unfold Env.client
  rw [h]
  have h1 : ¬ (([] : Str) = httpScheme ∨ ([] : Str) = httpsScheme) := by decide
  rw [if_neg h1]

/-- C3, as the code has it: for a challenge in which every segment has an `=` and none has
the key `realm`, `objectify` leaves the realm empty and `doRealmReq` makes no check of it:
it hands the token request built from the empty realm to the HTTP client, which refuses
the URL without scheme whatever the network is; `doRealmReq` returns that error with a nil
response after this one send, and sends no retry. -/
theorem doRealmReq_without_realm (env : Env) (method url body auth realmAuth authCmd : Str)
    (hsegs : ∀ seg ∈ split ',' authCmd, '=' ∈ seg)
    (hnokey : ∀ seg ∈ split ',' authCmd, (cut '=' seg).1 ≠ realmKey) :
    ∃ ras creds cerr u err,
      objectify authCmd = .ret ras ∧ ras.realm = [] ∧
      getAuthStruct realmAuth = .ret (creds, cerr) ∧
      env.realmURL [] ras.params = .ok u ∧
      env.client (tokenRequest env creds u) = .fail err none ∧
      doRealmReq env method url body auth realmAuth authCmd =
        ⟨.ret (.fail err none), [tokenRequest env creds u]⟩ := by
  obtain ⟨ras, hparse⟩ := objectifyLoop_total (split ',' authCmd) ⟨[], []⟩ hsegs
  have hrealm : ras.realm = [] := objectifyLoop_realm _ _ ras hparse hnokey
  obtain ⟨⟨creds, cerr⟩, hcreds⟩ := getAuthStruct_total realmAuth
  obtain ⟨u, hurl, hscheme, htokreq⟩ := env.realmURL_nil ras.params
  have hurl' : env.realmURL ras.realm ras.params = .ok u := by rw [hrealm]; exact hurl
  have hrefused : env.client (tokenRequest env creds u) =
      .fail (env.schemeError (tokenRequest env creds u)) none :=
    client_of_no_scheme env _ hscheme
  obtain ⟨err, hab, herr, _⟩ :=
    authenticateBearer_failure env creds ras u hurl' htokreq (Or.inl ⟨_, _, hrefused⟩)
  have he : err = env.schemeError (tokenRequest env creds u) := herr _ _ hrefused
  refine ⟨ras, creds, cerr, u, err, hparse, hrealm, hcreds, hurl, ?_, ?_⟩
  · rw [he]; exact hrefused
  · exact doRealmReq_of_token_error env method url body auth realmAuth authCmd ras creds cerr
      [] err _ hparse hcreds hab

/-- Witness of C3 as amended: the challenge `service="foo.bar.me"` against the servers of
the tests, whose realm would answer; the token request to the empty realm is refused and
its error returned. -/
theorem doRealmReq_without_realm_witness :
    ∃ ras creds cerr u err,
      objectify "service=\"foo.bar.me\"".toList = .ret ras ∧ ras.realm = [] ∧
      getAuthStruct "rjohn:rsomepass".toList = .ret (creds, cerr) ∧
      testEnv.realmURL [] ras.params = .ok u ∧
      testEnv.client (tokenRequest testEnv creds u) = .fail err none ∧
      doRealmReq testEnv "GET".toList "http://origin/realm".toList [] []
          "rjohn:rsomepass".toList "service=\"foo.bar.me\"".toList =
        ⟨.ret (.fail err none), [tokenRequest testEnv creds u]⟩ :=
  doRealmReq_without_realm testEnv "GET".toList "http://origin/realm".toList [] []
    "rjohn:rsomepass".toList "service=\"foo.bar.me\"".toList (by decide) (by decide)

/-- C3 as stated fails: on the challenge `service="foo.bar.me"`, which has no `realm` key,
`doRealmReq` does hand a token request, built from the empty realm, to the HTTP client. -/
theorem missing_realm_counterexample :
    (∀ seg ∈ split ',' "service=\"foo.bar.me\"".toList, (cut '=' seg).1 ≠ realmKey) ∧
    (doRealmReq testEnv "GET".toList "http://origin/realm".toList [] []
        "rjohn:rsomepass".toList "service=\"foo.bar.me\"".toList).sends =
      [⟨"GET".toList, "?service=foo.bar.me".toList, none,
        [(authorization, "Basic rjohn:rsomepass".toList)]⟩] ∧
    (doRealmReq testEnv "GET".toList "http://origin/realm".toList [] []
        "rjohn:rsomepass".toList "service=\"foo.bar.me\"".toList).sends ≠ [] := by
  decide

/-! ## Inputs on which the code stops with a run-time panic or drops input -/

theorem index_fault {α : Type} (xs : List α) (i : Nat) (p : Fault)
    (h : index xs i = .fault p) : p = .indexOutOfRange := by
  unfold index at h
  split at h
  · cases h
  · cases h
    rfl

theorem objectifyStep_fault (ras : RealmAuthStruct) (seg : Str) (p : Fault)
    (h : objectifyStep ras seg = .fault p) : p = .indexOutOfRange := by
  unfold objectifyStep at h
  dsimp only at h
  split at h
  · rename_i q hq
    cases h
    exact index_fault _ _ _ hq
  · split at h
    · rename_i q hq
      cases h
      exact index_fault _ _ _ hq
    · split at h <;> cases h

theorem objectifyLoop_faults (segs : List Str) (ras : RealmAuthStruct)
    (h : ∃ seg ∈ segs, '=' ∉ seg) : objectifyLoop segs ras = .fault .indexOutOfRange := by
  induction segs generalizing ras with
  | nil =>
    obtain ⟨seg, hseg, _⟩ := h
    simp at hseg
  | cons seg rest ih =>
    simp only [objectifyLoop]
    cases hstep : objectifyStep ras seg with
    | fault p => rw [objectifyStep_fault ras seg p hstep]
    | ret mid =>
      simp only
      apply ih
      obtain ⟨bad, hbad, hno⟩ := h
      rcases List.mem_cons.mp hbad with e | hm
      · exfalso
        subst e
        simp [objectifyStep, splitN2_of_not_mem '=' bad hno, index] at hstep
      · exact ⟨bad, hm, hno⟩

/-- Every challenge with a segment that contains no `=` makes `objectify` stop with an
index-out-of-range panic; there is no error result. -/
theorem objectify_faults_of_segment_without_eq (input : Str)
    (h : ∃ seg ∈ split ',' input, '=' ∉ seg) : objectify input = .fault .indexOutOfRange :=
  objectifyLoop_faults _ _ h

/-- C2 fails on the code: on `invalid_token` (the argument of the challenge
`Bearer invalid_token` of the test origin), on the empty string and on a string with a
trailing comma, `objectify` stops with an index-out-of-range panic on `keyval[1]`. -/
theorem objectify_panics_without_eq :
    objectify "invalid_token".toList = .fault .indexOutOfRange ∧
    objectify [] = .fault .indexOutOfRange ∧
    objectify "realm=\"http://realm\",".toList = .fault .indexOutOfRange := by
  decide

/-- C5 fails on the code: called with the header `X-My-Header: here`, `doreq` follows the
realm of the tests and its three requests carry no field but `Authorization`; the retry
has the method, URL and body of the call and the one field `Authorization: Bearer abc123`. -/
theorem retry_drops_caller_headers :
    doreq testEnv "GET".toList "http://origin/realm".toList ["X-My-Header: here".toList] []
        "rjohn:rsomepass".toList [] =
      ⟨.ret (.ok { status := 200, header := [], body := "realm".toList }),
        [⟨"GET".toList, "http://origin/realm".toList, some [], []⟩,
         ⟨"GET".toList, "http://realm?service=foo.bar.me".toList, none,
           [(authorization, "Basic rjohn:rsomepass".toList)]⟩,
         ⟨"GET".toList, "http://origin/realm".toList, some [],
           [(authorization, "Bearer abc123".toList)]⟩]⟩ := by
  decide

/-- The parameter `headers` of `doreq` is never read. -/
theorem doreq_ignores_headers (env : Env) (method url : Str) (headers : List Str)
    (auth realmAuth body : Str) :
    doreq env method url headers auth realmAuth body =
      doreq env method url [] auth realmAuth body := rfl

/-- C8 fails on the code: when the realm answers 200 with the JSON object `{}` or with
`{"token":5}`, `authenticateBearer` stops with a type-assertion panic on
`data["token"].(string)` instead of returning an error. -/
theorem token_assertion_panics :
    authenticateBearer (realmEnv "\x7b\x7d".toList)
        { user := "rjohn".toList, pass := "rsomepass".toList }
        { realm := "http://realm".toList, params := [] } =
      ⟨.fault .typeAssertion,
        [⟨"GET".toList, "http://realm".toList, none,
          [(authorization, "Basic rjohn:rsomepass".toList)]⟩]⟩ ∧
    authenticateBearer (realmEnv "\x7b\"token\":5\x7d".toList)
        { user := "rjohn".toList, pass := "rsomepass".toList }
        { realm := "http://realm".toList, params := [] } =
      ⟨.fault .typeAssertion,
        [⟨"GET".toList, "http://realm".toList, none,
          [(authorization, "Basic rjohn:rsomepass".toList)]⟩]⟩ := by
  decide

/-- C10 fails on the code: on a 401 whose `Www-Authenticate` value is exactly `Bearer`, or
has no white space after the scheme token, `doreq` stops with an index-out-of-range panic
on `authParts[1]`; and of `Bearer realm="http://realm",scope="pull push"` it hands to the
parser only the text up to the space inside the value of `scope`. -/
theorem bearer_argument_extraction :
    doreq (challengeEnv "Bearer".toList) "GET".toList "http://origin/realm".toList [] []
        "rjohn:rsomepass".toList [] =
      ⟨.fault .indexOutOfRange, [⟨"GET".toList, "http://origin/realm".toList, some [], []⟩]⟩ ∧
    doreq (challengeEnv "Bearerrealm=\"http://realm\"".toList) "GET".toList
        "http://origin/realm".toList [] [] "rjohn:rsomepass".toList [] =
      ⟨.fault .indexOutOfRange, [⟨"GET".toList, "http://origin/realm".toList, some [], []⟩]⟩ ∧
    index (fields "Bearer realm=\"http://realm\",scope=\"pull push\"".toList) 1 =
      .ret "realm=\"http://realm\",scope=\"pull".toList ∧
    (doreq (challengeEnv "Bearer realm=\"http://realm\",scope=\"pull push\"".toList)
        "GET".toList "http://origin/realm".toList [] [] "rjohn:rsomepass".toList []).sends.get? 1 =
      some ⟨"GET".toList, "http://realm?scope=pull".toList, none,
        [(authorization, "Basic rjohn:rsomepass".toList)]⟩ := by
  decide


end HttpRealm
